import Mathlib

/-!
Verification of the ORF-translation core of `TRANSLACJA_ORF.py`:
the codon-table loader `load_codon_table`, the translator
`translate_best_orf`, and the best-ORF selection loop of `main`.

Python strings are embedded as `List Char`; Python dicts built by
successive key assignments are embedded as the list of assignments in
order, with last-assignment-wins lookup (`dictGet`) and the number of
distinct keys as the dict size (`dictSize`).  Fatal `sys.exit(1)` paths
and the in-loop `IndexError` of `line.split("=", 1)[1]` are embedded as
`Except.error`.
-/

/-- Convert a Lean string literal to the `List Char` embedding. -/
def toL (s : String) : List Char := s.toList

/-- Python `str.strip()`: drop whitespace from both ends. -/
def pyStrip (s : List Char) : List Char :=
  ((s.dropWhile Char.isWhitespace).reverse.dropWhile Char.isWhitespace).reverse

/-- Python `s.split("=", 1)[1]`: the part after the first `=`;
`none` embeds the `IndexError` raised when `s` contains no `=`. -/
def afterEq (s : List Char) : Option (List Char) :=
  if '=' ∈ s then some ((s.dropWhile (fun c => c ≠ '=')).drop 1) else none

/-- `needle` occurs in `hay` at position `i` (Python substring match). -/
def occursAt (needle hay : List Char) (i : Nat) : Bool :=
  needle.isPrefixOf (hay.drop i)

/-- Python `hay.find(needle)`: smallest index at which `needle` occurs,
`none` embedding Python's `-1`. -/
def pyFind (hay needle : List Char) : Option Nat :=
  (List.range (hay.length + 1)).find? (occursAt needle hay)

/-- Python `hay.rfind(needle)`: largest index at which `needle` occurs,
`none` embedding Python's `-1`. -/
def pyRFind (hay needle : List Char) : Option Nat :=
  ((List.range (hay.length + 1)).filter (occursAt needle hay)).getLast?

/-- Python `dict.get` on a dict built by the recorded sequence of
assignments: the last assignment to a key wins. -/
def dictGet (d : List (List Char × Char)) (k : List Char) : Option Char :=
  ((d.filter (fun p => p.1 == k)).getLast?).map Prod.snd

/-- Python `len(dict)`: the number of distinct keys assigned. -/
def dictSize (d : List (List Char × Char)) : Nat :=
  (d.map Prod.fst).dedup.length

/-! ## Codon table loader (`load_codon_table`, lines 32-90) -/

/-- The five labeled rows scanned out of the table file (each `none`
until a line with the matching label is seen). -/
structure RawRows where
  aas : Option (List Char)
  starts : Option (List Char)
  b1 : Option (List Char)
  b2 : Option (List Char)
  b3 : Option (List Char)
deriving DecidableEq

/-- One iteration of the label-scanning loop (lines 60-70): a line
starting with a known label stores the stripped text after its `=`
(crashing like Python if there is no `=`); other lines are ignored. -/
def scanRawLine (r : RawRows) (line : List Char) : Except String RawRows :=
  if (toL "AAs").isPrefixOf line then
    match afterEq line with
    | none => Except.error "IndexError"
    | some v => Except.ok { r with aas := some (pyStrip v) }
  else if (toL "Starts").isPrefixOf line then
    match afterEq line with
    | none => Except.error "IndexError"
    | some v => Except.ok { r with starts := some (pyStrip v) }
  else if (toL "Base1").isPrefixOf line then
    match afterEq line with
    | none => Except.error "IndexError"
    | some v => Except.ok { r with b1 := some (pyStrip v) }
  else if (toL "Base2").isPrefixOf line then
    match afterEq line with
    | none => Except.error "IndexError"
    | some v => Except.ok { r with b2 := some (pyStrip v) }
  else if (toL "Base3").isPrefixOf line then
    match afterEq line with
    | none => Except.error "IndexError"
    | some v => Except.ok { r with b3 := some (pyStrip v) }
  else Except.ok r

/-- Line 46: strip every line and keep the nonblank ones. -/
def cleanLines (lines : List (List Char)) : List (List Char) :=
  (lines.map pyStrip).filter (fun l => !l.isEmpty)

/-- The whole label-scanning loop over the cleaned lines. -/
def extractRows (lines : List (List Char)) : Except String RawRows :=
  lines.foldlM scanRawLine ⟨none, none, none, none, none⟩

/-- The codons `Base1[i] + Base2[i] + Base3[i]` in index order
(lines 83-84; the three rows have equal length when this is reached). -/
def codons3 : List Char → List Char → List Char → List (List Char)
  | x :: xs, y :: ys, z :: zs => [x, y, z] :: codons3 xs ys zs
  | _, _, _ => []

/-- The dict-assignment sequences of the building loop, lines 83-88:
`codon2aa[codon] = AAs[i]` and `codon2start_flag[codon] = (Starts[i] == 'M')`. -/
def buildTables (a s b1 b2 b3 : List Char) :
    List (List Char × Char) × List (List Char × Bool) :=
  let cs := codons3 b1 b2 b3
  (cs.zip a, cs.zip (s.map (fun ch => ch == 'M')))

/-- `load_codon_table` (lines 32-90) on the list of file lines.
`Except.error` embeds both `sys.exit(1)` paths (missing row / unequal
lengths, lines 72-78; Python's truthiness check also rejects a present
but empty row) and the `IndexError` crash of a label line without `=`. -/
def load_codon_table (lines : List (List Char)) :
    Except String (List (List Char × Char) × List (List Char × Bool)) :=
  match extractRows (cleanLines lines) with
  | Except.error e => Except.error e
  | Except.ok r =>
    match r.aas, r.starts, r.b1, r.b2, r.b3 with
    | some a, some s, some b1, some b2, some b3 =>
      if a.isEmpty || s.isEmpty || b1.isEmpty || b2.isEmpty || b3.isEmpty then
        Except.error "missing rows"
      else if a.length == s.length && s.length == b1.length &&
          b1.length == b2.length && b2.length == b3.length then
        Except.ok (buildTables a s b1 b2 b3)
      else
        Except.error "unequal row lengths"
    | _, _, _, _, _ => Except.error "missing rows"

/-! ## ORF translator (`translate_best_orf`, lines 118-158) -/

/-- The translation loop of lines 142-158 over an already-extracted open
region `orf_nt`: positions `0, 3, ..., full_codons - 3` where
`full_codons = (len // 3) * 3`, so `len // 3` iterations; position 0 is
forced to `'M'`, later triplets go through `codon2aa.get(codon, "X")`. -/
def translateRegion (codon2aa : List (List Char × Char)) (orf_nt : List Char) :
    List Char :=
  (List.range (orf_nt.length / 3)).map (fun k =>
    let pos := 3 * k
    let codon := (orf_nt.drop pos).take 3
    if pos = 0 then 'M' else (dictGet codon2aa codon).getD 'X')

/-- `translate_best_orf` (lines 118-158): first occurrence of the start
codon, last occurrence of the stop codon, empty string unless
`i_start < i_stop`, then translate `seq[i_start:i_stop]`. -/
def translate_best_orf (nuc_seq : List Char) (codon2aa : List (List Char × Char))
    (chosen_start chosen_stop : List Char) : List Char :=
  match pyFind nuc_seq chosen_start with
  | none => []
  | some i_start =>
    match pyRFind nuc_seq chosen_stop with
    | none => []
    | some i_stop =>
      if i_stop ≤ i_start then []
      else translateRegion codon2aa ((nuc_seq.drop i_start).take (i_stop - i_start))

/-- The open region `seq[i_start:i_stop]` selected by
`translate_best_orf` (empty in the early-return cases). -/
def orfRegion (nuc_seq : List Char) (chosen_start chosen_stop : List Char) :
    List Char :=
  match pyFind nuc_seq chosen_start with
  | none => []
  | some i_start =>
    match pyRFind nuc_seq chosen_stop with
    | none => []
    | some i_stop =>
      if i_stop ≤ i_start then []
      else (nuc_seq.drop i_start).take (i_stop - i_start)

/-! ## Batch driver selection and output (`main`, lines 201-232) -/

/-- Line 22: the 7 alternative start codons, in declared order. -/
def START_CODONS : List (List Char) :=
  [toL "TTG", toL "CTG", toL "ATT", toL "ATC", toL "ATA", toL "ATG", toL "GTG"]

/-- Line 24: the 3 stop codons, in declared order. -/
def STOP_CODONS : List (List Char) :=
  [toL "TAA", toL "TAG", toL "TGA"]

/-- The 21 `(start, stop)` combinations in loop order: start codons
outer, stop codons inner. -/
def combos : List (List Char × List Char) :=
  START_CODONS.flatMap (fun st => STOP_CODONS.map (fun sp => (st, sp)))

/-- One iteration of the selection loop (lines 206-209): replace the
best candidate only when the new translation is strictly longer. -/
def pickStep {α : Type} (t : α → List Char) (b : List Char × Option α) (c : α) :
    List Char × Option α :=
  if b.1.length < (t c).length then (t c, some c) else b

/-- The nested selection loop of lines 201-209: start codons outer, stop
codons inner, starting from `best_aa = ""`, `best_combo = None`. -/
def driverSelect (nuc_seq : List Char) (codon2aa : List (List Char × Char)) :
    List Char × Option (List Char × List Char) :=
  START_CODONS.foldl (fun b st =>
    STOP_CODONS.foldl (fun b sp =>
      let aa_seq := translate_best_orf nuc_seq codon2aa st sp
      if b.1.length < aa_seq.length then (aa_seq, some (st, sp)) else b) b)
    ([], none)

/-- `translate_best_orf` applied to one `(start, stop)` combination. -/
def comboTranslate (nuc_seq : List Char) (codon2aa : List (List Char × Char))
    (c : List Char × List Char) : List Char :=
  translate_best_orf nuc_seq codon2aa c.1 c.2

/-- The per-record output of `main` (lines 201-232): the output filename
and the list of lines written to it (header line, then the amino-acid
sequence wrapped in 60-character rows). -/
def processRecord (name_root : List Char) (header : Option (List Char))
    (nuc_seq : List Char) (codon2aa : List (List Char × Char)) :
    List Char × List (List Char) :=
  let best := driverSelect nuc_seq codon2aa
  let chosen : List Char × List Char × List Char :=
    match best.2 with
    | none => ([], toL "NA", toL "NA")
    | some c => (best.1, c.1, c.2)
  let best_aa := chosen.1
  let st_code := chosen.2.1
  let sp_code := chosen.2.2
  let new_fname := name_root ++ st_code ++ sp_code ++ toL ".fasta"
  let headerLine :=
    match header with
    | some h => if h.isEmpty then '>' :: (name_root ++ st_code ++ sp_code) else h
    | none => '>' :: (name_root ++ st_code ++ sp_code)
  let seqLines := (List.range ((best_aa.length + 59) / 60)).map
    (fun i => (best_aa.drop (60 * i)).take 60)
  (new_fname, headerLine :: seqLines)

/-! ## Helper lemmas about the translator -/

theorem translateRegion_length (t : List (List Char × Char)) (orf : List Char) :
    (translateRegion t orf).length = orf.length / 3 := by
  simp [translateRegion]

theorem translate_eq_region (seq : List Char) (t : List (List Char × Char))
    (st sp : List Char) :
    translate_best_orf seq t st sp = translateRegion t (orfRegion seq st sp) := by
  unfold translate_best_orf orfRegion
  cases pyFind seq st with
  | none => simp [translateRegion]
  | some i_start =>
    cases pyRFind seq sp with
    | none => simp [translateRegion]
    | some i_stop =>
      by_cases h : i_stop ≤ i_start <;> simp [h, translateRegion]

theorem translateRegion_getElem? (t : List (List Char × Char)) (orf : List Char)
    (i : Nat) (h : i < orf.length / 3) :
    (translateRegion t orf)[i]? =
      some (if 3 * i = 0 then 'M'
            else (dictGet t ((orf.drop (3 * i)).take 3)).getD 'X') := by
  simp [translateRegion, List.getElem?_range h]

theorem pyRFind_le_length {s n : List Char} {i : Nat}
    (h : pyRFind s n = some i) : i ≤ s.length := by
  unfold pyRFind at h
  rcases List.getLast?_eq_some_iff.mp h with ⟨ys, hys⟩
  have hmem : i ∈ (List.range (s.length + 1)).filter (occursAt n s) := by
    rw [hys]; simp
  have h1 := (List.mem_filter.mp hmem).1
  have h2 := List.mem_range.mp h1
  omega

/-! ## Claims about `translate_best_orf` -/

/-- Claim C1: whenever `translate_best_orf` returns a nonempty string,
its length is `(i_stop - i_start) / 3`, where `i_start` is the first
occurrence of the start codon and `i_stop` the last occurrence of the
stop codon (the open region `seq[i_start:i_stop]` is translated and the
trailing leftover bases are dropped). -/
theorem translate_nonempty_length (seq : List Char) (t : List (List Char × Char))
    (st sp : List Char) (h : translate_best_orf seq t st sp ≠ []) :
    ∃ i_start i_stop, pyFind seq st = some i_start ∧
      pyRFind seq sp = some i_stop ∧ i_start < i_stop ∧
      (translate_best_orf seq t st sp).length = (i_stop - i_start) / 3 := by
  cases hf : pyFind seq st with
  | none => exact absurd (by simp [translate_best_orf, hf]) h
  | some i_start =>
    cases hr : pyRFind seq sp with
    | none => exact absurd (by simp [translate_best_orf, hf, hr]) h
    | some i_stop =>
      by_cases hle : i_stop ≤ i_start
      · exact absurd (by simp [translate_best_orf, hf, hr, hle]) h
      · refine ⟨i_start, i_stop, rfl, rfl, by omega, ?_⟩
        have hstop := pyRFind_le_length hr
        simp only [translate_best_orf, hf, hr, if_neg hle, translateRegion_length,
          List.length_take, List.length_drop]
        omega

/-- Witness for C1 at a concrete input: `"ATGAAATAA"` with `ATG`/`TAA`
gives the nonempty translation `"MX"` of length `(6 - 0) / 3 = 2`. -/
theorem translate_nonempty_length_witness :
    ∃ i_start i_stop, pyFind (toL "ATGAAATAA") (toL "ATG") = some i_start ∧
      pyRFind (toL "ATGAAATAA") (toL "TAA") = some i_stop ∧ i_start < i_stop ∧
      (translate_best_orf (toL "ATGAAATAA") [] (toL "ATG") (toL "TAA")).length =
        (i_stop - i_start) / 3 :=
  translate_nonempty_length (toL "ATGAAATAA") [] (toL "ATG") (toL "TAA") (by decide)

/-- Claim C3: whenever `translate_best_orf` returns a nonempty string,
its first character is `'M'`, whichever start codon was matched. -/
theorem translate_first_char_M (seq : List Char) (t : List (List Char × Char))
    (st sp : List Char) (h : translate_best_orf seq t st sp ≠ []) :
    (translate_best_orf seq t st sp)[0]? = some 'M' := by
  have he := translate_eq_region seq t st sp
  have hlen : 0 < (translate_best_orf seq t st sp).length := List.length_pos.mpr h
  rw [he, translateRegion_length] at hlen
  rw [he, translateRegion_getElem? _ _ 0 hlen]
  simp

/-- Witness for C3 at a concrete input with a non-`ATG` start codon:
`"TTGAAATAA"` with start `TTG` still begins with `'M'`. -/
theorem translate_first_char_M_witness :
    (translate_best_orf (toL "TTGAAATAA") [] (toL "TTG") (toL "TAA"))[0]? =
      some 'M' :=
  translate_first_char_M (toL "TTGAAATAA") [] (toL "TTG") (toL "TAA") (by decide)

/-- Claim C4: if the start codon is absent, or the stop codon is absent,
or the last occurrence of the stop codon is at an index less than or
equal to the first occurrence of the start codon, `translate_best_orf`
returns the empty string. -/
theorem translate_no_orf_empty (seq : List Char) (t : List (List Char × Char))
    (st sp : List Char)
    (h : pyFind seq st = none ∨ pyRFind seq sp = none ∨
      ∃ i j, pyFind seq st = some i ∧ pyRFind seq sp = some j ∧ j ≤ i) :
    translate_best_orf seq t st sp = [] := by
  rcases h with h | h | ⟨i, j, hi, hj, hle⟩
  · simp [translate_best_orf, h]
  · cases hf : pyFind seq st <;> simp [translate_best_orf, hf, h]
  · simp [translate_best_orf, hi, hj, hle]

/-- Witness for C4 at a concrete input: `"AAA"` contains no `ATG`. -/
theorem translate_no_orf_empty_witness :
    translate_best_orf (toL "AAA") [] (toL "ATG") (toL "TAA") = [] :=
  translate_no_orf_empty (toL "AAA") [] (toL "ATG") (toL "TAA")
    (Or.inl (by decide))

/-- Claim C10: even when the start codon occurs and the last occurrence
of the stop codon lies strictly after it, a gap of fewer than 3 bases
(`0 < i_stop - i_start < 3`) yields the empty string. -/
theorem translate_short_gap_empty (seq : List Char) (t : List (List Char × Char))
    (st sp : List Char) (i_start i_stop : Nat)
    (h1 : pyFind seq st = some i_start) (h2 : pyRFind seq sp = some i_stop)
    (h3 : i_start < i_stop) (h4 : i_stop - i_start < 3) :
    translate_best_orf seq t st sp = [] := by
  have he := translate_eq_region seq t st sp
  rw [he]
  have hz : (orfRegion seq st sp).length / 3 = 0 := by
    simp only [orfRegion, h1, h2, if_neg (by omega : ¬ i_stop ≤ i_start),
      List.length_take, List.length_drop]
    omega
  unfold translateRegion
  rw [hz]
  simp

/-- Witness for C10 at a concrete input: in `"ATGA"` the start `ATG` is
at 0 and the stop `TGA` at 1, a gap of 1 base, so the result is empty
although both codons occur in the right order. -/
theorem translate_short_gap_empty_witness :
    translate_best_orf (toL "ATGA") [] (toL "ATG") (toL "TGA") = [] :=
  translate_short_gap_empty (toL "ATGA") [] (toL "ATG") (toL "TGA") 0 1
    (by decide) (by decide) (by decide) (by decide)

/-- Counterexample to claim C2 as stated: with a codon table mapping
`TGA` to `'*'`, the sequence `"ATGTGACCCTAA"` with start `ATG` and stop
`TAA` translates to `"M*P"` — the internal in-frame triplet `TGA` of the
open region is looked up in the table and yields the stop symbol `'*'`
in the returned string. -/
theorem translate_contains_star_cex :
    translate_best_orf (toL "ATGTGACCCTAA") [(toL "TGA", '*'), (toL "CCC", 'P')]
        (toL "ATG") (toL "TAA") = toL "M*P" ∧
      '*' ∈ translate_best_orf (toL "ATGTGACCCTAA")
        [(toL "TGA", '*'), (toL "CCC", 'P')] (toL "ATG") (toL "TAA") := by
  constructor <;> decide

/-- Claim C2 as amended: the delimiting stop codon at `i_stop` is itself
excluded (the open region ends before it), and every character of the
result after the first is exactly the codon table's image of its triplet
(`'X'` when the triplet is absent) — so a triplet inside the open region
that maps to `'*'` does put `'*'` into the returned string. -/
theorem translate_char_eq_table (seq : List Char) (t : List (List Char × Char))
    (st sp : List Char) (i : Nat) (h1 : 1 ≤ i)
    (h2 : i < (translate_best_orf seq t st sp).length) :
    (translate_best_orf seq t st sp)[i]? =
      some ((dictGet t (((orfRegion seq st sp).drop (3 * i)).take 3)).getD 'X') := by
  have he := translate_eq_region seq t st sp
  rw [he] at h2 ⊢
  rw [translateRegion_length] at h2
  rw [translateRegion_getElem? _ _ i h2]
  rw [if_neg (by omega : ¬ 3 * i = 0)]

/-- Witness for the amended C2 at a concrete input: position 1 of the
translation of `"ATGTGACCCTAA"` is the table image `'*'` of `TGA`. -/
theorem translate_char_eq_table_witness :
    (translate_best_orf (toL "ATGTGACCCTAA") [(toL "TGA", '*'), (toL "CCC", 'P')]
        (toL "ATG") (toL "TAA"))[1]? =
      some ((dictGet [(toL "TGA", '*'), (toL "CCC", 'P')]
        (((orfRegion (toL "ATGTGACCCTAA") (toL "ATG") (toL "TAA")).drop
          (3 * 1)).take 3)).getD 'X') :=
  translate_char_eq_table (toL "ATGTGACCCTAA") [(toL "TGA", '*'), (toL "CCC", 'P')]
    (toL "ATG") (toL "TAA") 1 (by decide) (by decide)

/-- Claim C6: a triplet of the open region other than the first that is
absent from the codon table is rendered as `'X'`; `translate_best_orf`
is total, so no unknown codon can make it fail. -/
theorem translate_unknown_codon_X (seq : List Char) (t : List (List Char × Char))
    (st sp : List Char) (i : Nat) (h1 : 1 ≤ i)
    (h2 : i < (translate_best_orf seq t st sp).length)
    (h3 : dictGet t (((orfRegion seq st sp).drop (3 * i)).take 3) = none) :
    (translate_best_orf seq t st sp)[i]? = some 'X' := by
  have he := translate_eq_region seq t st sp
  rw [he] at h2 ⊢
  rw [translateRegion_length] at h2
  rw [translateRegion_getElem? _ _ i h2]
  rw [if_neg (by omega : ¬ 3 * i = 0), h3]
  rfl

/-- Witness for C6 at a concrete input: with a table that knows only
`CCC`, the second triplet `AAA` of `"ATGAAATAA"` is absent and renders
as `'X'`. -/
theorem translate_unknown_codon_X_witness :
    (translate_best_orf (toL "ATGAAATAA") [(toL "CCC", 'P')]
        (toL "ATG") (toL "TAA"))[1]? = some 'X' :=
  translate_unknown_codon_X (toL "ATGAAATAA") [(toL "CCC", 'P')]
    (toL "ATG") (toL "TAA") 1 (by decide) (by decide) (by decide)

/-! ## Helper lemmas about the selection loop -/

/-- The greatest translation length over a list of candidates. -/
def maxLenT {α : Type} (t : α → List Char) : List α → Nat
  | [] => 0
  | c :: l => max (t c).length (maxLenT t l)

theorem maxLenT_eq_zero {α : Type} (t : α → List Char) (l : List α)
    (h : ∀ c ∈ l, t c = []) : maxLenT t l = 0 := by
  induction l with
  | nil => rfl
  | cons a l ih =>
    simp only [maxLenT, h a (by simp)]
    simpa using ih (fun c hc => h c (by simp [hc]))

theorem foldl_pickStep_of_le {α : Type} (t : α → List Char) (l : List α) :
    ∀ b : List Char × Option α, maxLenT t l ≤ b.1.length →
      l.foldl (pickStep t) b = b := by
  induction l with
  | nil => intro b _; rfl
  | cons c l ih =>
    intro b h
    simp only [maxLenT, max_le_iff] at h
    simp only [List.foldl_cons]
    have hs : pickStep t b c = b := by
      unfold pickStep
      rw [if_neg (by omega : ¬ b.1.length < (t c).length)]
    rw [hs]
    exact ih b h.2

theorem foldl_pickStep_first_max {α : Type} (t : α → List Char) (l : List α) :
    ∀ (b : List Char × Option α) (c : α), b.1.length < maxLenT t l →
      l.find? (fun x => (t x).length == maxLenT t l) = some c →
      l.foldl (pickStep t) b = (t c, some c) := by
  induction l with
  | nil => intro b c h _; simp [maxLenT] at h
  | cons a l ih =>
    intro b c h hfind
    by_cases ha : (t a).length = maxLenT t (a :: l)
    · have hc : c = a := by
        rw [List.find?_cons_of_pos _ (by simpa using ha)] at hfind
        exact (Option.some_inj.mp hfind).symm
      subst hc
      simp only [List.foldl_cons]
      have hstep : pickStep t b c = (t c, some c) := by
        unfold pickStep
        rw [if_pos (by omega : b.1.length < (t c).length)]
      rw [hstep]
      apply foldl_pickStep_of_le
      have : maxLenT t l ≤ maxLenT t (c :: l) := by
        simp only [maxLenT]; omega
      simpa using by omega
    · have hub : (t a).length ≤ maxLenT t (a :: l) := by
        simp only [maxLenT]; omega
      have hM : maxLenT t (a :: l) = maxLenT t l := by
        simp only [maxLenT] at *; omega
      rw [List.find?_cons_of_neg _ (by simpa using ha)] at hfind
      simp only [hM] at hfind h
      simp only [List.foldl_cons]
      have hb' : (pickStep t b a).1.length < maxLenT t l := by
        unfold pickStep
        split
        · simpa using by omega
        · exact h
      exact ih (pickStep t b a) c hb' hfind

/-- The nested selection loop equals the flat fold over the 21 ordered
combinations. -/
theorem driverSelect_eq (seq : List Char) (t : List (List Char × Char)) :
    driverSelect seq t =
      combos.foldl (pickStep (comboTranslate seq t)) ([], none) := rfl

/-- Claim C5: the driver evaluates all 7 × 3 = 21 combinations, start
codons outer and stop codons inner in declared order, replacing the best
candidate only on strictly greater length; hence the winning combination
is the first one, in that fixed order, whose translation attains the
maximal length. -/
theorem driver_first_max_selected (seq : List Char) (t : List (List Char × Char))
    (c : List Char × List Char)
    (h1 : 0 < maxLenT (comboTranslate seq t) combos)
    (h2 : combos.find? (fun x => (comboTranslate seq t x).length ==
        maxLenT (comboTranslate seq t) combos) = some c) :
    combos.length = 21 ∧ driverSelect seq t = (comboTranslate seq t c, some c) := by
  refine ⟨by decide, ?_⟩
  rw [driverSelect_eq]
  exact foldl_pickStep_first_max _ combos ([], none) c (by simpa using h1) h2

/-- Witness for C5 at a concrete input: on `"ATGAAATAA"` with an empty
table the unique longest translation comes from `(ATG, TAA)`, which is
what the driver selects. -/
theorem driver_first_max_selected_witness :
    combos.length = 21 ∧
      driverSelect (toL "ATGAAATAA") [] =
        (comboTranslate (toL "ATGAAATAA") [] (toL "ATG", toL "TAA"),
          some (toL "ATG", toL "TAA")) :=
  driver_first_max_selected (toL "ATGAAATAA") [] (toL "ATG", toL "TAA")
    (by decide) (by decide)

/-- Claim C9: a nonempty record all of whose 21 candidate translations
are empty is still written out, with the sentinel combination marker
`NANA` in the filename, a single header line (the original header when
present and nonblank, otherwise a synthesized one) and no sequence
lines; `processRecord` is total, so the case cannot raise. -/
theorem driver_empty_record_output (nr : List Char) (hdr : Option (List Char))
    (seq : List Char) (t : List (List Char × Char)) (_hne : seq ≠ [])
    (hall : ∀ c ∈ combos, comboTranslate seq t c = []) :
    processRecord nr hdr seq t = (nr ++ toL "NANA.fasta",
      [match hdr with
       | some h => if h.isEmpty then '>' :: (nr ++ toL "NANA") else h
       | none => '>' :: (nr ++ toL "NANA")]) := by
  have hmax : maxLenT (comboTranslate seq t) combos = 0 :=
    maxLenT_eq_zero _ _ hall
  have hsel : driverSelect seq t = ([], none) := by
    rw [driverSelect_eq]
    exact foldl_pickStep_of_le _ combos ([], none) (by simp [hmax])
  simp only [processRecord, hsel, List.append_assoc]
  cases hdr with
  | none => rfl
  | some h => rfl

/-- Witness for C9 at a concrete input: the one-base record `"A"` (no
codon fits) with no header yields the `NANA` filename and just the
synthesized header line. -/
theorem driver_empty_record_output_witness :
    processRecord (toL "r") none (toL "A") [] =
      (toL "r" ++ toL "NANA.fasta", ['>' :: (toL "r" ++ toL "NANA")]) :=
  driver_empty_record_output (toL "r") none (toL "A") [] (by decide) (by decide)

/-! ## Helper lemmas about the codon table loader -/

theorem codons3_length : ∀ x y z : List Char,
    (codons3 x y z).length = min x.length (min y.length z.length)
  | [], y, z => by cases y <;> cases z <;> simp [codons3]
  | _ :: _, [], z => by cases z <;> simp [codons3]
  | _ :: _, _ :: _, [] => by simp [codons3]
  | x :: xs, y :: ys, z :: zs => by
    simp only [codons3, List.length_cons, codons3_length xs ys zs]
    omega

theorem mem_zip_of_getElem? {α β : Type} : ∀ (l1 : List α) (l2 : List β)
    (i : Nat) (x : α) (y : β),
    l1[i]? = some x → l2[i]? = some y → (x, y) ∈ l1.zip l2
  | [], _, _, _, _ => by intro hx; simp at hx
  | _ :: _, [], _, _, _ => by intro _ hy; simp at hy
  | a :: l1, b :: l2, 0, x, y => by
    intro hx hy
    simp only [List.getElem?_cons_zero, Option.some_inj] at hx hy
    subst hx; subst hy
    simp [List.zip_cons_cons]
  | a :: l1, b :: l2, i + 1, x, y => by
    intro hx hy
    simp only [List.getElem?_cons_succ] at hx hy
    exact List.mem_cons_of_mem _ (mem_zip_of_getElem? l1 l2 i x y hx hy)

theorem filter_key_eq_nil (d : List (List Char × Char)) (k : List Char)
    (h : k ∉ d.map Prod.fst) : d.filter (fun p => p.1 == k) = [] := by
  induction d with
  | nil => rfl
  | cons q d ih =>
    simp only [List.map_cons, List.mem_cons, not_or] at h
    rw [List.filter_cons,
      if_neg (by simp only [beq_iff_eq]; exact fun hq => h.1 hq.symm)]
    exact ih h.2

theorem dictGet_of_nodup (d : List (List Char × Char))
    (hnd : (d.map Prod.fst).Nodup) (p : List Char × Char) (hp : p ∈ d) :
    dictGet d p.1 = some p.2 := by
  induction d with
  | nil => cases hp
  | cons q d ih =>
    simp only [List.map_cons, List.nodup_cons] at hnd
    rcases List.mem_cons.mp hp with rfl | hp'
    · unfold dictGet
      rw [List.filter_cons, if_pos (by simp), filter_key_eq_nil d p.1 hnd.1]
      rfl
    · have hne : q.1 ≠ p.1 := by
        intro hq
        exact hnd.1 (hq ▸ List.mem_map_of_mem Prod.fst hp')
      unfold dictGet at ih ⊢
      rw [List.filter_cons, if_neg (by simpa using hne)]
      exact ih hnd.2 hp'

/-- Claim C8: `load_codon_table` signals an error — and never returns a
table — whenever the scan of the labeled rows itself crashes, or any of
the five labeled rows `AAs`, `Starts`, `Base1`, `Base2`, `Base3` was not
found, or the five row strings do not all have equal length. -/
theorem load_missing_or_unequal_fails (lines : List (List Char))
    (h :
      (∃ e, extractRows (cleanLines lines) = Except.error e) ∨
      (∃ r, extractRows (cleanLines lines) = Except.ok r ∧
        (r.aas = none ∨ r.starts = none ∨ r.b1 = none ∨ r.b2 = none ∨
          r.b3 = none)) ∨
      (∃ a s b1 b2 b3, extractRows (cleanLines lines) =
          Except.ok ⟨some a, some s, some b1, some b2, some b3⟩ ∧
        ¬(a.length = s.length ∧ s.length = b1.length ∧
          b1.length = b2.length ∧ b2.length = b3.length))) :
    (load_codon_table lines).isOk = false := by
  unfold load_codon_table
  rcases h with ⟨e, he⟩ | ⟨r, hr, hmiss⟩ | ⟨a, s, b1, b2, b3, hr, hne⟩
  · rw [he]
    rfl
  · rw [hr]
    obtain ⟨aas, starts, b1, b2, b3⟩ := r
    simp only at hmiss
    cases aas <;> cases starts <;> cases b1 <;> cases b2 <;> cases b3 <;>
      first
      | rfl
      | simp_all
  · rw [hr]
    simp only
    split
    · rfl
    · split
      · rename_i htrue
        exfalso
        apply hne
        simp only [Bool.and_eq_true, beq_iff_eq] at htrue
        exact ⟨htrue.1.1.1, htrue.1.1.2, htrue.1.2, htrue.2⟩
      · rfl

/-- Witness for C8 at a concrete input: a file containing only an `AAs`
row is missing the other four rows, and loading it fails. -/
theorem load_missing_or_unequal_fails_witness :
    (load_codon_table [toL "AAs = F"]).isOk = false :=
  load_missing_or_unequal_fails [toL "AAs = F"]
    (Or.inr (Or.inl ⟨⟨some (toL "F"), none, none, none, none⟩, rfl,
      Or.inr (Or.inl rfl)⟩))

/-- Claim C7 as amended: if the five labeled rows are present with equal
length 64 AND the 64 codons `Base1[i]+Base2[i]+Base3[i]` are pairwise
distinct, then `load_codon_table` succeeds, the resulting dict has
exactly 64 entries, and the codon at index `i` maps to `AAs[i]` (each
amino-acid value is a `Char`, i.e. a single character, by construction).
Without the distinctness condition the claim is false: duplicate codons
collapse in the dict and later assignments overwrite earlier ones. -/
theorem load_valid_table (lines : List (List Char)) (a s b1 b2 b3 : List Char)
    (hext : extractRows (cleanLines lines) =
      Except.ok ⟨some a, some s, some b1, some b2, some b3⟩)
    (ha : a.length = 64) (hs : s.length = 64) (hb1 : b1.length = 64)
    (hb2 : b2.length = 64) (hb3 : b3.length = 64)
    (hnd : (codons3 b1 b2 b3).Nodup) :
    ∃ c2a c2s, load_codon_table lines = Except.ok (c2a, c2s) ∧
      dictSize c2a = 64 ∧
      ∀ i, i < 64 → ∃ cdn aa, (codons3 b1 b2 b3)[i]? = some cdn ∧
        a[i]? = some aa ∧ dictGet c2a cdn = some aa := by
  have hemp : ∀ l : List Char, l.length = 64 → l.isEmpty = false := by
    intro l hl
    cases l with
    | nil => simp at hl
    | cons x xs => rfl
  have hcl : (codons3 b1 b2 b3).length = 64 := by
    rw [codons3_length]; omega
  have hload : load_codon_table lines = Except.ok (buildTables a s b1 b2 b3) := by
    unfold load_codon_table
    rw [hext]
    simp [hemp a ha, hemp s hs, hemp b1 hb1, hemp b2 hb2, hemp b3 hb3,
      ha, hs, hb1, hb2, hb3]
  refine ⟨(codons3 b1 b2 b3).zip a,
    (codons3 b1 b2 b3).zip (s.map (fun ch => ch == 'M')), ?_, ?_, ?_⟩
  · rw [hload]; rfl
  · unfold dictSize
    rw [List.map_fst_zip _ _ (by omega), List.dedup_eq_self.mpr hnd, hcl]
  · intro i hi
    have hi1 : i < (codons3 b1 b2 b3).length := by omega
    have hi2 : i < a.length := by omega
    refine ⟨(codons3 b1 b2 b3)[i], a[i],
      List.getElem?_eq_getElem hi1, List.getElem?_eq_getElem hi2, ?_⟩
    have hmem : ((codons3 b1 b2 b3)[i], a[i]) ∈ (codons3 b1 b2 b3).zip a :=
      mem_zip_of_getElem? _ _ i _ _
        (List.getElem?_eq_getElem hi1) (List.getElem?_eq_getElem hi2)
    have hknd : (((codons3 b1 b2 b3).zip a).map Prod.fst).Nodup := by
      rw [List.map_fst_zip _ _ (by omega)]
      exact hnd
    exact dictGet_of_nodup _ hknd _ hmem

/-- The five rows of the standard NCBI codon table, as documented in the
loader's docstring. -/
def ncbiLines : List (List Char) :=
  [toL "AAs    = FFLLSSSSYY**CC*WLLLLPPPPHHQQRRRRIIIMTTTTNNKKSSRRVVVVAAAADDEEGGGG",
   toL "Starts = ---M------**--*----M------------MMMM---------------M------------",
   toL "Base1  = TTTTTTTTTTTTTTTTCCCCCCCCCCCCCCCCAAAAAAAAAAAAAAAAGGGGGGGGGGGGGGGG",
   toL "Base2  = TTTTCCCCAAAAGGGGTTTTCCCCAAAAGGGGTTTTCCCCAAAAGGGGTTTTCCCCAAAAGGGG",
   toL "Base3  = TCAGTCAGTCAGTCAGTCAGTCAGTCAGTCAGTCAGTCAGTCAGTCAGTCAGTCAGTCAGTCAG"]

/-- Witness for the amended C7 at a concrete input: the real NCBI table
satisfies the hypotheses (its 64 codons are pairwise distinct), so the
loader returns a 64-entry table mapping codon `i` to `AAs[i]`. -/
theorem load_valid_table_witness :
    ∃ c2a c2s, load_codon_table ncbiLines = Except.ok (c2a, c2s) ∧
      dictSize c2a = 64 ∧
      ∀ i, i < 64 → ∃ cdn aa,
        (codons3
          (toL "TTTTTTTTTTTTTTTTCCCCCCCCCCCCCCCCAAAAAAAAAAAAAAAAGGGGGGGGGGGGGGGG")
          (toL "TTTTCCCCAAAAGGGGTTTTCCCCAAAAGGGGTTTTCCCCAAAAGGGGTTTTCCCCAAAAGGGG")
          (toL "TCAGTCAGTCAGTCAGTCAGTCAGTCAGTCAGTCAGTCAGTCAGTCAGTCAGTCAGTCAGTCAG"))[i]? =
            some cdn ∧
        (toL "FFLLSSSSYY**CC*WLLLLPPPPHHQQRRRRIIIMTTTTNNKKSSRRVVVVAAAADDEEGGGG")[i]? =
          some aa ∧
        dictGet c2a cdn = some aa :=
  load_valid_table ncbiLines
    (toL "FFLLSSSSYY**CC*WLLLLPPPPHHQQRRRRIIIMTTTTNNKKSSRRVVVVAAAADDEEGGGG")
    (toL "---M------**--*----M------------MMMM---------------M------------")
    (toL "TTTTTTTTTTTTTTTTCCCCCCCCCCCCCCCCAAAAAAAAAAAAAAAAGGGGGGGGGGGGGGGG")
    (toL "TTTTCCCCAAAAGGGGTTTTCCCCAAAAGGGGTTTTCCCCAAAAGGGGTTTTCCCCAAAAGGGG")
    (toL "TCAGTCAGTCAGTCAGTCAGTCAGTCAGTCAGTCAGTCAGTCAGTCAGTCAGTCAGTCAGTCAG")
    rfl rfl rfl rfl rfl rfl (by decide)

/-- Amino-acid row of the C7 counterexample: `F` then 63 copies of `L`,
length 64. -/
def dupA : List Char := 'F' :: List.replicate 63 'L'

/-- Starts row of the C7 counterexample: 64 dashes. -/
def dupS : List Char := List.replicate 64 '-'

/-- Base row of the C7 counterexample: 64 copies of `A`, so every index
yields the same codon `AAA`. -/
def dupB : List Char := List.replicate 64 'A'

/-- A syntactically well-formed table text whose five rows all have
length 64 but whose codons are all the duplicate `AAA`. -/
def dupLines : List (List Char) :=
  [toL "AAs = " ++ dupA, toL "Starts = " ++ dupS, toL "Base1 = " ++ dupB,
   toL "Base2 = " ++ dupB, toL "Base3 = " ++ dupB]

/-- Counterexample to claim C7 as stated: `dupLines` has all five rows
present with equal length 64, yet the loaded dict has 1 entry, not 64,
and the codon built at index 0 maps to `'L'` (the last duplicate write),
not to `AAs[0] = 'F'`. -/
theorem load_valid_table_cex :
    extractRows (cleanLines dupLines) =
      Except.ok ⟨some dupA, some dupS, some dupB, some dupB, some dupB⟩ ∧
    dupA.length = 64 ∧ dupS.length = 64 ∧ dupB.length = 64 ∧
    (load_codon_table dupLines).toOption.map (fun p => dictSize p.1) = some 1 ∧
    dupA[0]? = some 'F' ∧
    (load_codon_table dupLines).toOption.map
      (fun p => dictGet p.1 (toL "AAA")) = some (some 'L') :=
  ⟨rfl, rfl, rfl, rfl, rfl, rfl, rfl⟩
